import Mathlib

/-!
Verification of the well-plate analyzer's colorimetric pipeline
(`services/wellPlateProcessor.ts`).

The TypeScript source is shallowly embedded below. JavaScript numbers are
modelled as exact rationals (`ℚ`); machine indices as `ℕ`/`ℤ`. The three
irrational-valued primitives of the source — `Math.hypot` (Euclidean
magnitude) and the sRGB↔CIELAB conversions `rgbToLab`/`labToRgb` (which use
`Math.pow` with exponents 2.4 and 1/3) — cannot be represented exactly in ℚ,
so they are taken as explicit function parameters; every theorem below holds
for all instantiations of these parameters, and witnesses instantiate them
with concrete rational-valued stand-ins. Fallible JavaScript code (a `reject`
of the analysis promise, or a thrown `TypeError`) is modelled with
`Except String`.
-/

/- Batteries marks the `Rat` field operations irreducible, which blocks the
elaborator's evaluation in `decide`; the kernel unfolds them regardless. -/
attribute [local semireducible] Rat.add Rat.mul Rat.inv Rat.sub Rat.ofScientific

set_option maxRecDepth 8000

deriving instance DecidableEq for Except

namespace WellPlate

/-- Integer RGB triple, channels in 0..255 (`types.ts`, `interface RGB`). -/
structure RGB where
  r : ℕ
  g : ℕ
  b : ℕ
deriving DecidableEq

/-- CIE L*a*b* triple (`wellPlateProcessor.ts`, `interface Lab`). -/
structure Lab where
  l : ℚ
  a : ℚ
  b : ℚ
deriving DecidableEq

/-- Pixel-space point (`types.ts`, `interface Point`). -/
structure Point where
  x : ℚ
  y : ℚ
deriving DecidableEq

/-- Grid calibration (`types.ts`, `interface GridConfig`): `origin` is the
center of the top-left well, `u` the per-column step, `v` the per-row step. -/
structure GridConfig where
  origin : Point
  u : Point
  v : Point
deriving DecidableEq

/-- Per-well analysis record (`types.ts`, `interface WellResult`). -/
structure WellResult where
  id : String
  row : ℕ
  col : ℕ
  center : Point
  avgColor : RGB
  intensity : ℚ
  viability : ℚ
deriving DecidableEq

/-- One `(concentration, mean viability)` dose point of `calculateIC50`. -/
structure DataPoint where
  concentration : ℚ
  viability : ℚ
deriving DecidableEq

/-- The IC50 estimate (`{ value, units }` in the source). -/
structure IC50Result where
  value : ℚ
  units : String
deriving DecidableEq

/-- The analysis result (`interface AnalysisOutput` in the source). -/
structure AnalysisOutput where
  wellResults : List WellResult
  ic50 : Option IC50Result
deriving DecidableEq

/-- The decoded image behind the canvas context: a width, a height, and the
RGB value of each in-bounds pixel. -/
structure Image where
  width : ℕ
  height : ℕ
  pixel : ℕ → ℕ → RGB

/-- JavaScript `Math.round`: round half toward positive infinity,
`Math.round x = ⌊x + 1/2⌋`. (`Rat.floor` is the floor function on ℚ.) -/
def jsRound (q : ℚ) : ℤ := (q + 1 / 2).floor

/-- One pixel read of `ctx.getImageData`: per the HTML canvas specification,
a requested pixel outside the canvas bounds is transparent black, so its RGB
channels read as `(0,0,0)`. -/
def readPixel (img : Image) (x y : ℤ) : RGB :=
  if 0 ≤ x ∧ x < (img.width : ℤ) ∧ 0 ≤ y ∧ y < (img.height : ℤ) then
    img.pixel x.toNat y.toNat
  else
    ⟨0, 0, 0⟩

/-- Function `getPixelData` (source lines 84–102). The radius is clamped by
`Math.max(1, Math.round(radius))`; `getImageData` is called at top-left
`(round (x−r), round (y−r))` with width and height `2r`; the flat RGBA index
loop `i = 0, 4, 8, …` is the single loop over the pixel index
`k = i/4 ∈ [0, (2r)²)` with `px = k % 2r`, `py = k / 2r`; the disk test
`sqrt ((px−r)² + (py−r)²) ≤ r` is written with both sides squared, which is
an exact rendering because both sides are nonnegative integers and `sqrt` is
monotone. -/
def getPixelData (img : Image) (x y radius : ℚ) : List RGB :=
  let r : ℤ := max 1 (jsRound radius)
  let n : ℕ := (2 * r).toNat
  let sx : ℤ := jsRound (x - (r : ℚ))
  let sy : ℤ := jsRound (y - (r : ℚ))
  (List.range (n * n)).filterMap fun k =>
    let px : ℕ := k % n
    let py : ℕ := k / n
    if ((px : ℤ) - r) ^ 2 + ((py : ℤ) - r) ^ 2 ≤ r ^ 2 then
      some (readPixel img (sx + (px : ℤ)) (sy + (py : ℤ)))
    else
      none

/-- The same sampler written as two nested loops (outer over `py`, inner over
`px`), the shape in which the amended C6 states it. -/
def roundedSquareDiskSample (img : Image) (x y radius : ℚ) : List RGB :=
  let r : ℤ := max 1 (jsRound radius)
  let n : ℕ := (2 * r).toNat
  let sx : ℤ := jsRound (x - (r : ℚ))
  let sy : ℤ := jsRound (y - (r : ℚ))
  (List.range n).flatMap fun (py : ℕ) =>
    (List.range n).filterMap fun (px : ℕ) =>
      if ((px : ℤ) - r) ^ 2 + ((py : ℤ) - r) ^ 2 ≤ r ^ 2 then
        some (readPixel img (sx + (px : ℤ)) (sy + (py : ℤ)))
      else
        none

/-- Integer range `[a, b]` as a list, ascending. -/
def intRange (a b : ℤ) : List ℤ :=
  (List.range (b + 1 - a).toNat).map fun k => a + (k : ℤ)

/-- The sampler that claim C6 describes, written from the spec's words
(spec §4.2): the radius is "floored to an integer ≥ 1", the bounding square
is "`[center − radius, center + radius]`", and the sampler "retains the
in-bounds pixels whose Euclidean distance from `center` is ≤ `radius`"
(squared on both sides; out-of-bounds positions yield nothing). -/
def flooredDiskSample (img : Image) (x y radius : ℚ) : List RGB :=
  let r : ℤ := max 1 radius.floor
  (intRange (y - (r : ℚ)).ceil (y + (r : ℚ)).floor).flatMap fun j =>
    (intRange (x - (r : ℚ)).ceil (x + (r : ℚ)).floor).filterMap fun i =>
      if 0 ≤ i ∧ i < (img.width : ℤ) ∧ 0 ≤ j ∧ j < (img.height : ℤ) ∧
          ((i : ℚ) - x) ^ 2 + ((j : ℚ) - y) ^ 2 ≤ ((r : ℚ)) ^ 2 then
        some (img.pixel i.toNat j.toNat)
      else
        none

/-- All in-bounds pixels of an image, as a list (row-major). Used to state
that every sample is either a real image pixel or the black fill. -/
def imagePixels (img : Image) : List RGB :=
  (List.range img.height).flatMap fun j =>
    (List.range img.width).map fun i => img.pixel i j

/-- The per-channel median of the spec (§4.3): sort the channel, take the
central order statistic, or the mean of the two central ones when the count
is even. -/
def channelMedian (values : List ℚ) : ℚ :=
  let sorted := List.insertionSort (fun a b => a ≤ b) values
  let mid := sorted.length / 2
  if sorted.length % 2 = 0 then
    (sorted.getD (mid - 1) 0 + sorted.getD mid 0) / 2
  else
    sorted.getD mid 0

/-- Function `getRobustAverageColor` (source lines 108–130), parametric in the two
color conversions. Empty input returns black, a single pixel is returned
unchanged (`pixels[0]`), otherwise each Lab channel is sorted ascending
(`.sort((a, b) => a - b)`) and its median taken (`mid = ⌊n/2⌋`; for even `n`
the mean of entries `mid − 1` and `mid`), and the median Lab triple is
converted back. In-range array reads are rendered with `getD _ 0`. -/
def getRobustAverageColor (rgbToLab : RGB → Lab) (labToRgb : Lab → RGB)
    (pixels : List RGB) : RGB :=
  if pixels.length = 0 then ⟨0, 0, 0⟩
  else if pixels.length = 1 then pixels.getD 0 ⟨0, 0, 0⟩
  else
    let labPixels := pixels.map rgbToLab
    let l_values := List.insertionSort (fun a b => a ≤ b) (labPixels.map Lab.l)
    let a_values := List.insertionSort (fun a b => a ≤ b) (labPixels.map Lab.a)
    let b_values := List.insertionSort (fun a b => a ≤ b) (labPixels.map Lab.b)
    let mid := l_values.length / 2
    let medianL := if l_values.length % 2 = 0 then
        (l_values.getD (mid - 1) 0 + l_values.getD mid 0) / 2
      else l_values.getD mid 0
    let medianA := if a_values.length % 2 = 0 then
        (a_values.getD (mid - 1) 0 + a_values.getD mid 0) / 2
      else a_values.getD mid 0
    let medianB := if b_values.length % 2 = 0 then
        (b_values.getD (mid - 1) 0 + b_values.getD mid 0) / 2
      else b_values.getD mid 0
    labToRgb ⟨medianL, medianA, medianB⟩

/-- Viabilities grouped by row (source lines 140–145): bucket `r` holds, in
well order, the viability of every well whose `row` equals `r`; wells with
`row ≥ rowCount` are skipped by the `well.row < rowCount` guard. -/
def viabilitiesByRow (wellResults : List WellResult) (rowCount : ℕ) : List (List ℚ) :=
  (List.range rowCount).map fun r =>
    (wellResults.filter fun well => well.row = r).map WellResult.viability

/-- One step of the `rowConcentrations.map((concentration, rowIndex) => …)`
callback (source lines 148–158). The JavaScript guard
`concentration <= 0 || viabilitiesByRow[rowIndex]?.length === 0` short-circuits
on non-positive concentrations; for `rowIndex ≥ rowCount` the optional
chaining yields `undefined`, `undefined === 0` is `false`, and the next line
`viabilities.reduce(…)` dereferences `undefined` — a thrown `TypeError`,
modelled as `Except.error`. `reduce((sum, v) => sum + v, 0)` is `foldl` and
the mean divides by the row's sample count. -/
def rowMeanPoint (vbr : List (List ℚ)) (rowIndex : ℕ) (concentration : ℚ) :
    Except String (Option DataPoint) :=
  if concentration ≤ 0 then .ok none
  else
    match vbr[rowIndex]? with
    | some viabilities =>
      if viabilities.length = 0 then .ok none
      else .ok (some ⟨concentration, viabilities.foldl (fun sum v => sum + v) 0 / (viabilities.length : ℚ)⟩)
    | none => .error "TypeError: cannot read reduce of undefined"

/-- JavaScript `Array.prototype.map` with an index, over a callback that can
throw: the first thrown error aborts the whole map. -/
def mapIdxExcept (f : ℕ → ℚ → Except String (Option DataPoint)) :
    ℕ → List ℚ → Except String (List (Option DataPoint))
  | _, [] => .ok []
  | i, c :: rest =>
    match f i c with
    | .error e => .error e
    | .ok b =>
      match mapIdxExcept f (i + 1) rest with
      | .error e => .error e
      | .ok bs => .ok (b :: bs)

/-- The comparator `(a, b) => a.concentration - b.concentration` of the data
point sort: ascending concentration. -/
def byConc (a b : DataPoint) : Prop := a.concentration ≤ b.concentration

instance byConcDecidable : DecidableRel byConc := fun a b =>
  inferInstanceAs (Decidable (a.concentration ≤ b.concentration))

instance byConcTotal : IsTotal DataPoint byConc :=
  ⟨fun a b => le_total a.concentration b.concentration⟩

instance byConcTrans : IsTrans DataPoint byConc :=
  ⟨fun _ _ _ hab hbc => le_trans hab hbc⟩

/-- The `dataPoints` array of `calculateIC50` (source lines 147–160): map the
row concentrations to optional `(concentration, mean viability)` points, drop
the `null`s, and sort ascending by concentration (JavaScript's sort is
stable; so is `insertionSort`). The map can throw (see `rowMeanPoint`). -/
def dataPointsE (wellResults : List WellResult) (rowConcentrations : List ℚ)
    (rowCount : ℕ) : Except String (List DataPoint) :=
  match mapIdxExcept (rowMeanPoint (viabilitiesByRow wellResults rowCount)) 0 rowConcentrations with
  | .error e => .error e
  | .ok maybePoints => .ok (List.insertionSort byConc (maybePoints.filterMap id))

/-- The 50%-crossing test on one adjacent pair (source line 170):
`(current.viability ≥ 50 ∧ next.viability < 50) ∨ (current.viability < 50 ∧ next.viability ≥ 50)`. -/
def crossAt (current next : DataPoint) : Prop :=
  (50 ≤ current.viability ∧ next.viability < 50) ∨
  (current.viability < 50 ∧ 50 ≤ next.viability)

instance crossAtDecidable (current next : DataPoint) : Decidable (crossAt current next) :=
  inferInstanceAs (Decidable ((50 ≤ current.viability ∧ next.viability < 50) ∨
    (current.viability < 50 ∧ 50 ≤ next.viability)))

/-- The reordering of the bracketing pair (source lines 171–177): `p1` is the
point of strictly smaller viability. -/
def reorderByViability (current next : DataPoint) : DataPoint × DataPoint :=
  if current.viability < next.viability then (current, next) else (next, current)

/-- The crossing scan (source lines 167–180): walk adjacent pairs in order,
stop at the first crossing, return the reordered pair. -/
def findFirstCrossing : List DataPoint → Option (DataPoint × DataPoint)
  | current :: next :: rest =>
    if crossAt current next then some (reorderByViability current next)
    else findFirstCrossing (next :: rest)
  | _ => none

/-- The crossing test applied to two optional points; `False` when either is
missing. Backs the decidable `crossingAt`. -/
def crossAtOpt : Option DataPoint → Option DataPoint → Prop
  | some current, some next => crossAt current next
  | some _, none => False
  | none, _ => False

instance crossAtOptDecidable : (o₁ o₂ : Option DataPoint) → Decidable (crossAtOpt o₁ o₂)
  | some current, some next => inferInstanceAs (Decidable (crossAt current next))
  | some _, none => inferInstanceAs (Decidable False)
  | none, some _ => inferInstanceAs (Decidable False)
  | none, none => inferInstanceAs (Decidable False)

/-- The sorted sequence has a 50%-viability crossing at adjacent index `j`. -/
def crossingAt (dataPoints : List DataPoint) (j : ℕ) : Prop :=
  crossAtOpt dataPoints[j]? dataPoints[j + 1]?

instance crossingAtDecidable (dataPoints : List DataPoint) (j : ℕ) :
    Decidable (crossingAt dataPoints j) :=
  inferInstanceAs (Decidable (crossAtOpt dataPoints[j]? dataPoints[j + 1]?))

/-- Function `calculateIC50` (source lines 132–194). The final
`isNaN(ic50Value) || !isFinite(ic50Value)` guard of the source is omitted:
in exact rational arithmetic the interpolation is always finite, because the
preceding guard ensures the divisor `viability2 − viability1` is nonzero. -/
def calculateIC50 (wellResults : List WellResult) (rowConcentrations : List ℚ)
    (rowCount : ℕ) (units : String) : Except String (Option IC50Result) :=
  if (rowConcentrations.filter fun c => 0 < c).length < 2 then .ok none
  else
    match dataPointsE wellResults rowConcentrations rowCount with
    | .error e => .error e
    | .ok dataPoints =>
      if dataPoints.length < 2 then .ok none
      else
        match findFirstCrossing dataPoints with
        | none => .ok none
        | some (p1, p2) =>
          if |p2.viability - p1.viability| < 1 / 1000000 then .ok none
          else
            .ok (some ⟨p1.concentration +
              (50 - p1.viability) * (p2.concentration - p1.concentration) /
                (p2.viability - p1.viability), units⟩)

/-- Constant `WELL_RADIUS_FACTOR` (source line 4): `0.30`. -/
def WELL_RADIUS_FACTOR : ℚ := 30 / 100

/-- The per-well intensity (source lines 262–277): `0` unless the well has at
least one sampled pixel and the calibration gradient's squared magnitude
exceeds `1e-6`, in which case it is the clamped scalar projection of the
well color onto the calibration axis. -/
def wellIntensity (rgbToLab : RGB → Lab) (labMin gradientVector : Lab)
    (gradientMagSq : ℚ) (pixels : List RGB) (avgColor : RGB) : ℚ :=
  if 0 < pixels.length ∧ 1 / 1000000 < gradientMagSq then
    let labWell := rgbToLab avgColor
    let dotProduct := (labWell.l - labMin.l) * gradientVector.l +
      (labWell.a - labMin.a) * gradientVector.a +
      (labWell.b - labMin.b) * gradientVector.b
    max 0 (min 1 (dotProduct / gradientMagSq))
  else 0

/-- One iteration of the well loop (source lines 254–288): the center is
`origin + col·u + row·v`, the id is `String.fromCharCode(65 + row)`
followed by the decimal rendering of `col + 1`, and `viability` is
`intensity * 100`. -/
def analyzeWell (rgbToLab : RGB → Lab) (labToRgb : Lab → RGB) (img : Image)
    (gc : GridConfig) (radius : ℚ) (labMin gradientVector : Lab)
    (gradientMagSq : ℚ) (row col : ℕ) : WellResult :=
  let centerX := gc.origin.x + (col : ℚ) * gc.u.x + (row : ℚ) * gc.v.x
  let centerY := gc.origin.y + (col : ℚ) * gc.u.y + (row : ℚ) * gc.v.y
  let pixels := getPixelData img centerX centerY radius
  let avgColor := getRobustAverageColor rgbToLab labToRgb pixels
  let intensity := wellIntensity rgbToLab labMin gradientVector gradientMagSq pixels avgColor
  { id := (Char.ofNat (65 + row)).toString ++ toString (col + 1)
    row := row
    col := col
    center := ⟨centerX, centerY⟩
    avgColor := avgColor
    intensity := intensity
    viability := intensity * 100 }

/-- The nested `for (row …) for (col …) results.push(…)` loop of the source:
row-major accumulation. -/
def wellsOf (rgbToLab : RGB → Lab) (labToRgb : Lab → RGB) (img : Image)
    (gc : GridConfig) (rowCount colCount : ℕ) (radius : ℚ)
    (labMin gradientVector : Lab) (gradientMagSq : ℚ) : List WellResult :=
  (List.range rowCount).flatMap fun row =>
    (List.range colCount).map fun col =>
      analyzeWell rgbToLab labToRgb img gc radius labMin gradientVector gradientMagSq row col

/-- The reference calibration and per-well loop of `processWellPlate`
(source lines 239–289), given the two sampled reference pixel lists: robust
reference colors, Lab gradient vector and its squared magnitude, then the
full row-major well list. -/
def pipelineWells (rgbToLab : RGB → Lab) (labToRgb : Lab → RGB) (img : Image)
    (gc : GridConfig) (rowCount colCount : ℕ) (radius : ℚ)
    (minColorPixels maxColorPixels : List RGB) : List WellResult :=
  let minRefRgb := getRobustAverageColor rgbToLab labToRgb minColorPixels
  let maxRefRgb := getRobustAverageColor rgbToLab labToRgb maxColorPixels
  let labMin := rgbToLab minRefRgb
  let labMax := rgbToLab maxRefRgb
  let gradientVector : Lab := ⟨labMax.l - labMin.l, labMax.a - labMin.a, labMax.b - labMin.b⟩
  let gradientMagSq := gradientVector.l ^ 2 + gradientVector.a ^ 2 + gradientVector.b ^ 2
  wellsOf rgbToLab labToRgb img gc rowCount colCount radius labMin gradientVector gradientMagSq

/-- Function `processWellPlate` after the two reference samples are taken (source
lines 235–292): reject when either reference sample is empty, otherwise
build the wells and run `calculateIC50`; a `TypeError` thrown inside
`calculateIC50` propagates out of the `image.onload` handler, so the
analysis produces no output — modelled by propagating the error. -/
def analyzeAfterSampling (rgbToLab : RGB → Lab) (labToRgb : Lab → RGB) (img : Image)
    (gc : GridConfig) (rowCount colCount : ℕ) (radius : ℚ)
    (minColorPixels maxColorPixels : List RGB)
    (rowConcentrations : List ℚ) (concentrationUnits : String) :
    Except String AnalysisOutput :=
  if minColorPixels.length = 0 ∨ maxColorPixels.length = 0 then
    .error "Could not sample reference colors. Please ensure calibration points are inside wells."
  else
    let results := pipelineWells rgbToLab labToRgb img gc rowCount colCount radius
      minColorPixels maxColorPixels
    match calculateIC50 results rowConcentrations rowCount concentrationUnits with
    | .error e => .error e
    | .ok ic50 => .ok ⟨results, ic50⟩

/-- Function `processWellPlate` (source lines 197–296), parametric in `Math.hypot`
(the Euclidean magnitude, irrational in general). The image decode and
canvas setup are environment steps outside the model; the source's radius
guard `radius === 0 || !isFinite(radius)` reduces to the zero test because a
rational is always finite. -/
def processWellPlate (hypot : ℚ → ℚ → ℚ) (rgbToLab : RGB → Lab) (labToRgb : Lab → RGB)
    (img : Image) (gridConfig : GridConfig) (rowCount colCount : ℕ)
    (controlNegativePoint controlPositivePoint : Point)
    (rowConcentrations : List ℚ) (concentrationUnits : String) :
    Except String AnalysisOutput :=
  let u_mag := hypot gridConfig.u.x gridConfig.u.y
  let v_mag := hypot gridConfig.v.x gridConfig.v.y
  let radius := min u_mag v_mag * WELL_RADIUS_FACTOR
  if radius = 0 then
    .error "Could not determine a valid well radius. Check grid selection and dimensions."
  else
    analyzeAfterSampling rgbToLab labToRgb img gridConfig rowCount colCount radius
      (getPixelData img controlNegativePoint.x controlNegativePoint.y radius)
      (getPixelData img controlPositivePoint.x controlPositivePoint.y radius)
      rowConcentrations concentrationUnits

/-- Concrete stand-in for `Math.hypot` used by witnesses: it agrees with the
Euclidean magnitude on axis-aligned vectors, the only vectors the witnesses
use. -/
def hypotAxis (x y : ℚ) : ℚ := if x = 0 then |y| else if y = 0 then |x| else 0

/-- Concrete stand-in for `rgbToLab` used by witnesses: reads the channels as
Lab coordinates. -/
def labOfChannels (c : RGB) : Lab := ⟨(c.r : ℚ), (c.g : ℚ), (c.b : ℚ)⟩

/-- Concrete stand-in for `labToRgb` used by witnesses. -/
def blackOfLab (_ : Lab) : RGB := ⟨0, 0, 0⟩

/-- A 20×20 all-white image. -/
def imgWhite : Image := ⟨20, 20, fun _ _ => ⟨255, 255, 255⟩⟩

/-- A 1×1 image whose only pixel is not black, so the black fill of
out-of-bounds sampling is visible. -/
def imgDot : Image := ⟨1, 1, fun _ _ => ⟨9, 9, 9⟩⟩

/-- A 2-row, 1-column grid with origin (10,10) and axis-aligned steps of
length 4, giving sampling radius `min 4 4 * 0.30 = 1.2`. -/
def gcSmall : GridConfig := ⟨⟨10, 10⟩, ⟨4, 0⟩, ⟨0, 4⟩⟩

/-- Negative-control calibration point of the small runs. -/
def npSmall : Point := ⟨10, 10⟩

/-- Positive-control calibration point of the small runs. -/
def ppSmall : Point := ⟨14, 10⟩

/-- The successful output of the small 2×1 run with no concentrations: both
wells sample only white pixels, the references coincide, so the calibration
gradient is zero and both intensities are forced to 0. -/
def outSmall : AnalysisOutput :=
  ⟨[⟨"A1", 0, 0, ⟨10, 10⟩, ⟨0, 0, 0⟩, 0, 0⟩,
    ⟨"B1", 1, 0, ⟨10, 14⟩, ⟨0, 0, 0⟩, 0, 0⟩], none⟩

/-- Four single-well rows whose mean viabilities are 90, 60, 40, 10 — the
dose series of the spec's IC50 bracket test. -/
def exampleWells : List WellResult :=
  [⟨"A1", 0, 0, ⟨0, 0⟩, ⟨0, 0, 0⟩, 9 / 10, 90⟩,
   ⟨"B1", 1, 0, ⟨0, 0⟩, ⟨0, 0, 0⟩, 6 / 10, 60⟩,
   ⟨"C1", 2, 0, ⟨0, 0⟩, ⟨0, 0, 0⟩, 4 / 10, 40⟩,
   ⟨"D1", 3, 0, ⟨0, 0⟩, ⟨0, 0, 0⟩, 1 / 10, 10⟩]

/-- The concentrations 1, 10, 100, 1000 of the spec's IC50 bracket test. -/
def exampleConcs : List ℚ := [1, 10, 100, 1000]

/-- The sorted dose points of the bracket test. -/
def exampleDataPoints : List DataPoint := [⟨1, 90⟩, ⟨10, 60⟩, ⟨100, 40⟩, ⟨1000, 10⟩]

/-- A two-pixel sample for the median witness. -/
def pixPair : List RGB := [⟨0, 0, 0⟩, ⟨2, 4, 6⟩]

/-- The first well of `outSmall`. -/
def wellA1 : WellResult := ⟨"A1", 0, 0, ⟨10, 10⟩, ⟨0, 0, 0⟩, 0, 0⟩

/-- A grid whose step vectors are both zero, giving sampling radius 0. -/
def gcZero : GridConfig := ⟨⟨10, 10⟩, ⟨0, 0⟩, ⟨0, 0⟩⟩

/-! ## Helper lemmas -/

/-- A `filterMap` over the flat index range `[0, m·n)`, read through
`k ↦ (k % n, k / n)`, is the nested loop over `(j, i) ∈ [0,m) × [0,n)`. -/
theorem range_mul_filterMap {α : Type} (h : ℕ → ℕ → Option α) (m n : ℕ) :
    ((List.range (m * n)).filterMap fun k => h (k % n) (k / n)) =
      (List.range m).flatMap fun j => (List.range n).filterMap fun i => h i j := by
  induction m with
  | zero => simp
  | succ m ih =>
    rw [Nat.succ_mul, List.range_add, List.filterMap_append, ih, List.range_succ,
      List.flatMap_append, List.filterMap_map]
    congr 1
    simp only [List.flatMap_cons, List.flatMap_nil, List.append_nil]
    refine List.filterMap_congr fun i hi => ?_
    have hin : i < n := List.mem_range.mp hi
    have h1 : (m * n + i) % n = i := by
      rw [Nat.mul_comm m n, Nat.mul_add_mod, Nat.mod_eq_of_lt hin]
    have h2 : (m * n + i) / n = m := by
      rw [Nat.mul_comm m n, Nat.mul_add_div (by omega), Nat.div_eq_of_lt hin]
      omega
    simp [Function.comp, h1, h2]

/-- The two forms of the pixel sampler agree. -/
theorem getPixelData_eq_square (img : Image) (x y radius : ℚ) :
    getPixelData img x y radius = roundedSquareDiskSample img x y radius := by
  unfold getPixelData roundedSquareDiskSample
  dsimp only
  generalize max 1 (jsRound radius) = r
  exact range_mul_filterMap
    (fun px py =>
      if ((px : ℤ) - r) ^ 2 + ((py : ℤ) - r) ^ 2 ≤ r ^ 2 then
        some (readPixel img (jsRound (x - (r : ℚ)) + (px : ℤ)) (jsRound (y - (r : ℚ)) + (py : ℤ)))
      else none)
    ((2 * r).toNat) ((2 * r).toNat)

/-- A pixel read is either black or an actual in-bounds pixel of the image. -/
theorem readPixel_black_or_mem (img : Image) (a b : ℤ) :
    readPixel img a b = ⟨0, 0, 0⟩ ∨ readPixel img a b ∈ imagePixels img := by
  unfold readPixel
  split
  · rename_i hb
    right
    obtain ⟨hx0, hxw, hy0, hyh⟩ := hb
    exact List.mem_flatMap.mpr ⟨b.toNat, List.mem_range.mpr (by omega),
      List.mem_map.mpr ⟨a.toNat, List.mem_range.mpr (by omega), rfl⟩⟩
  · exact Or.inl rfl

/-- The sampler always returns at least one pixel: the center position of the
sampled square is inside the disk, and an out-of-bounds read is black, not
missing. -/
theorem getPixelData_length_pos (img : Image) (x y radius : ℚ) :
    0 < (getPixelData img x y radius).length := by
  rw [getPixelData_eq_square]
  simp only [roundedSquareDiskSample]
  set r : ℤ := max 1 (jsRound radius) with hr
  have h1r : 1 ≤ r := le_max_left 1 (jsRound radius)
  have hrn : r.toNat < (2 * r).toNat := by omega
  have hcast : ((r.toNat : ℕ) : ℤ) = r := Int.toNat_of_nonneg (by omega)
  have hcond : (((r.toNat : ℕ) : ℤ) - r) ^ 2 + (((r.toNat : ℕ) : ℤ) - r) ^ 2 ≤ r ^ 2 := by
    rw [hcast]
    simpa using sq_nonneg r
  refine List.length_pos.mpr (List.ne_nil_of_mem (a := readPixel img
    (jsRound (x - (r : ℚ)) + ((r.toNat : ℕ) : ℤ)) (jsRound (y - (r : ℚ)) + ((r.toNat : ℕ) : ℤ))) ?_)
  refine List.mem_flatMap.mpr ⟨r.toNat, List.mem_range.mpr hrn, ?_⟩
  refine List.mem_filterMap.mpr ⟨r.toNat, List.mem_range.mpr hrn, ?_⟩
  rw [if_pos hcond]

/-- Every sampled value is either the black fill or an actual in-bounds pixel
of the image. -/
theorem getPixelData_mem_black_or_pixel (img : Image) (x y radius : ℚ) (p : RGB)
    (hp : p ∈ getPixelData img x y radius) : p = ⟨0, 0, 0⟩ ∨ p ∈ imagePixels img := by
  simp only [getPixelData] at hp
  obtain ⟨k, -, hk⟩ := List.mem_filterMap.mp hp
  split at hk
  · obtain rfl : readPixel img _ _ = p := (Option.some.injEq _ _).mp hk
    exact readPixel_black_or_mem img _ _
  · exact absurd hk (by simp)

/-- Everything an index-carrying map returns comes from applying the callback
to some input element. -/
theorem mapIdxExcept_mem (f : ℕ → ℚ → Except String (Option DataPoint)) :
    ∀ (i : ℕ) (l : List ℚ) (out : List (Option DataPoint)),
      mapIdxExcept f i l = .ok out → ∀ b ∈ out, ∃ j c, c ∈ l ∧ f j c = .ok b := by
  intro i l
  induction l generalizing i with
  | nil =>
    intro out h b hb
    simp only [mapIdxExcept] at h
    obtain rfl : ([] : List (Option DataPoint)) = out := (Except.ok.injEq _ _).mp h
    simp at hb
  | cons c rest ih =>
    intro out h b hb
    simp only [mapIdxExcept] at h
    split at h
    · exact absurd h (by simp)
    · rename_i b0 hb0
      split at h
      · exact absurd h (by simp)
      · rename_i bs hbs
        obtain rfl : b0 :: bs = out := (Except.ok.injEq _ _).mp h
        rcases List.mem_cons.mp hb with rfl | hbtail
        · exact ⟨i, c, List.mem_cons_self c rest, hb0⟩
        · obtain ⟨j, c', hc', hfc'⟩ := ih (i + 1) bs hbs b hbtail
          exact ⟨j, c', List.mem_cons_of_mem c hc', hfc'⟩

/-- Every data point of the sorted dose series has a strictly positive
concentration that occurs in the row concentration list. -/
theorem dataPointsE_mem (wellResults : List WellResult) (rowConcentrations : List ℚ)
    (rowCount : ℕ) (dps : List DataPoint)
    (h : dataPointsE wellResults rowConcentrations rowCount = .ok dps)
    (p : DataPoint) (hp : p ∈ dps) :
    0 < p.concentration ∧ p.concentration ∈ rowConcentrations := by
  unfold dataPointsE at h
  split at h
  · exact absurd h (by simp)
  · rename_i maybePoints hmap
    obtain rfl : List.insertionSort byConc (maybePoints.filterMap id) = dps :=
      (Except.ok.injEq _ _).mp h
    have hp' : p ∈ maybePoints.filterMap id := (List.mem_insertionSort byConc).mp hp
    obtain ⟨o, ho, hop⟩ := List.mem_filterMap.mp hp'
    obtain rfl : o = some p := by cases o <;> simp_all
    obtain ⟨j, c, hc, hfc⟩ := mapIdxExcept_mem _ 0 _ _ hmap (some p) ho
    unfold rowMeanPoint at hfc
    split at hfc
    · exact absurd hfc (by simp)
    · rename_i hcpos
      split at hfc
      · rename_i viabilities heq
        split at hfc
        · exact absurd hfc (by simp)
        · have : some (⟨c, viabilities.foldl (fun sum v => sum + v) 0 / (viabilities.length : ℚ)⟩ : DataPoint) = some p := (Except.ok.injEq _ _).mp hfc
          have hpc : p.concentration = c := by
            cases (Option.some.injEq _ _).mp this
            rfl
          rw [hpc]
          exact ⟨not_le.mp hcpos, hc⟩
      · exact absurd hfc (by simp)

/-- After reordering a crossing pair, the first point is strictly below 50%
viability and the second at or above it. -/
theorem reorder_viability_split (current next : DataPoint) (h : crossAt current next) :
    (reorderByViability current next).1.viability < 50 ∧
      50 ≤ (reorderByViability current next).2.viability := by
  unfold reorderByViability
  rcases h with ⟨h1, h2⟩ | ⟨h1, h2⟩ <;> split <;> rename_i hlt <;>
    simp only [Prod.fst, Prod.snd] <;> constructor <;> linarith

/-- The bracketing pair returned by the crossing scan consists of two
elements of the scanned list. -/
theorem findFirstCrossing_mem :
    ∀ (l : List DataPoint) (p1 p2 : DataPoint),
      findFirstCrossing l = some (p1, p2) → p1 ∈ l ∧ p2 ∈ l := by
  intro l
  induction l with
  | nil => intro p1 p2 h; simp [findFirstCrossing] at h
  | cons current rest ih =>
    intro p1 p2 h
    match rest, h with
    | [], h => simp [findFirstCrossing] at h
    | next :: rest', h =>
      rw [findFirstCrossing] at h
      split at h
      · have := (Option.some.injEq _ _).mp h
        unfold reorderByViability at this
        split at this <;> rename_i hlt <;> cases this <;>
          exact ⟨by simp, by simp⟩
      · obtain ⟨h1, h2⟩ := ih p1 p2 h
        exact ⟨List.mem_cons_of_mem _ h1, List.mem_cons_of_mem _ h2⟩

/-- The crossing scan always returns a pair split around 50% viability. -/
theorem findFirstCrossing_viability :
    ∀ (l : List DataPoint) (p1 p2 : DataPoint),
      findFirstCrossing l = some (p1, p2) → p1.viability < 50 ∧ 50 ≤ p2.viability := by
  intro l
  induction l with
  | nil => intro p1 p2 h; simp [findFirstCrossing] at h
  | cons current rest ih =>
    intro p1 p2 h
    match rest, h with
    | [], h => simp [findFirstCrossing] at h
    | next :: rest', h =>
      rw [findFirstCrossing] at h
      split at h
      · rename_i hx
        have := reorder_viability_split current next hx
        have heq := (Option.some.injEq _ _).mp h
        rw [heq] at this
        exact this
      · exact ih p1 p2 h

/-- A crossing of the tail, shifted. -/
theorem crossingAt_cons (a : DataPoint) (t : List DataPoint) (j : ℕ) :
    crossingAt (a :: t) (j + 1) ↔ crossingAt t j := by
  unfold crossingAt
  rw [List.getElem?_cons_succ, List.getElem?_cons_succ]

/-- If the sorted list has a crossing at adjacent index `i` and none at any
earlier adjacent index, the scan returns exactly the reordering of the pair
at `i`. -/
theorem findFirstCrossing_of_first :
    ∀ (l : List DataPoint) (i : ℕ) (c n : DataPoint),
      l[i]? = some c → l[i + 1]? = some n → crossAt c n →
      (∀ j, j < i → ¬ crossingAt l j) →
      findFirstCrossing l = some (reorderByViability c n) := by
  intro l
  induction l with
  | nil => intro i c n hc _ _ _; simp at hc
  | cons a t ih =>
    intro i c n hc hn hx hmin
    match t with
    | [] =>
      rcases i with - | i <;> simp at hn
    | b :: t' =>
      rw [findFirstCrossing]
      rcases i with - | i
      · obtain rfl : a = c := by simpa using hc
        obtain rfl : b = n := by simpa using hn
        rw [if_pos hx]
      · have hab : ¬ crossAt a b := by
          have h0 := hmin 0 (Nat.succ_pos i)
          unfold crossingAt crossAtOpt at h0
          simpa using h0
        rw [if_neg hab]
        refine ih i c n (by simpa using hc) (by simpa using hn) hx ?_
        intro j hj
        have := hmin (j + 1) (by omega)
        exact fun hcross => this ((crossingAt_cons a (b :: t') j).mpr hcross)

/-- Structural read-off of a successful `calculateIC50` run: there is a
sorted dose list with at least two points, the crossing scan finds a
bracketing pair whose viability difference clears the epsilon guard, and the
result is exactly the interpolation formula with the given units. -/
theorem calculateIC50_ok_some (wellResults : List WellResult) (rowConcentrations : List ℚ)
    (rowCount : ℕ) (units : String) (res : IC50Result)
    (h : calculateIC50 wellResults rowConcentrations rowCount units = .ok (some res)) :
    ∃ dps p1 p2, dataPointsE wellResults rowConcentrations rowCount = .ok dps ∧
      2 ≤ dps.length ∧ findFirstCrossing dps = some (p1, p2) ∧
      1 / 1000000 ≤ |p2.viability - p1.viability| ∧
      res = ⟨p1.concentration + (50 - p1.viability) * (p2.concentration - p1.concentration) /
        (p2.viability - p1.viability), units⟩ := by
  unfold calculateIC50 at h
  split at h
  · exact absurd h (by simp)
  · split at h
    · exact absurd h (by simp)
    · rename_i dps hdps
      split at h
      · exact absurd h (by simp)
      · rename_i hlen
        split at h
        · exact absurd h (by simp)
        · rename_i p1 p2 hpr
          split at h
          · exact absurd h (by simp)
          · rename_i heps
            refine ⟨dps, p1, p2, hdps, by omega, hpr, by linarith [not_lt.mp heps], ?_⟩
            have := (Except.ok.injEq _ _).mp h
            exact ((Option.some.injEq _ _).mp this).symm

/-- Length of a row-major double loop. -/
theorem flatMap_range_length {α : Type} (F : ℕ → ℕ → α) (m n : ℕ) :
    ((List.range m).flatMap fun i => (List.range n).map (F i)).length = m * n := by
  induction m with
  | zero => simp
  | succ m ih =>
    rw [List.range_succ, List.flatMap_append]
    simp [ih, Nat.succ_mul]

/-- Indexing a row-major double loop: entry `i·n + j` is `F i j`. -/
theorem flatMap_range_getElem? {α : Type} (F : ℕ → ℕ → α) (m n i j : ℕ)
    (hi : i < m) (hj : j < n) :
    ((List.range m).flatMap fun i => (List.range n).map (F i))[i * n + j]? = some (F i j) := by
  induction m with
  | zero => omega
  | succ m ih =>
    rw [List.range_succ, List.flatMap_append, List.getElem?_append]
    have hlen : ((List.range m).flatMap fun i => (List.range n).map (F i)).length = m * n :=
      flatMap_range_length F m n
    rcases Nat.lt_or_ge i m with him | him
    · have hidx : i * n + j < m * n :=
        calc i * n + j < i * n + n := Nat.add_lt_add_left hj _
        _ = (i + 1) * n := (Nat.succ_mul i n).symm
        _ ≤ m * n := Nat.mul_le_mul_right n him
      rw [if_pos (by omega)]
      exact ih him
    · have : i = m := by omega
      subst this
      rw [if_neg (by omega)]
      rw [hlen]
      have : i * n + j - i * n = j := by omega
      rw [this]
      simp [List.getElem?_range hj]

/-- The per-well intensity is clamped to `[0, 1]`. -/
theorem wellIntensity_bounds (rgbToLab : RGB → Lab) (labMin gradientVector : Lab)
    (gradientMagSq : ℚ) (pixels : List RGB) (avgColor : RGB) :
    0 ≤ wellIntensity rgbToLab labMin gradientVector gradientMagSq pixels avgColor ∧
      wellIntensity rgbToLab labMin gradientVector gradientMagSq pixels avgColor ≤ 1 := by
  unfold wellIntensity
  split
  · exact ⟨le_max_left 0 _, max_le (by norm_num) (min_le_left 1 _)⟩
  · norm_num

/-- The per-well intensity is forced to zero on an empty sample or a
degenerate (near-zero) calibration gradient. -/
theorem wellIntensity_zero (rgbToLab : RGB → Lab) (labMin gradientVector : Lab)
    (gradientMagSq : ℚ) (pixels : List RGB) (avgColor : RGB)
    (h : pixels = [] ∨ gradientMagSq < 1 / 1000000) :
    wellIntensity rgbToLab labMin gradientVector gradientMagSq pixels avgColor = 0 := by
  unfold wellIntensity
  rw [if_neg]
  rintro ⟨hlen, hmag⟩
  rcases h with rfl | h
  · simp at hlen
  · linarith

/-- Structural read-off of a successful `processWellPlate` run: the returned
well list is the calibrated pipeline over the two reference samples, and the
returned IC50 is `calculateIC50` of that list. -/
theorem processWellPlate_ok (hypot : ℚ → ℚ → ℚ) (rgbToLab : RGB → Lab)
    (labToRgb : Lab → RGB) (img : Image) (gc : GridConfig) (rowCount colCount : ℕ)
    (np pp : Point) (concs : List ℚ) (units : String) (out : AnalysisOutput)
    (h : processWellPlate hypot rgbToLab labToRgb img gc rowCount colCount np pp concs units = .ok out) :
    out.wellResults = pipelineWells rgbToLab labToRgb img gc rowCount colCount
        (min (hypot gc.u.x gc.u.y) (hypot gc.v.x gc.v.y) * WELL_RADIUS_FACTOR)
        (getPixelData img np.x np.y (min (hypot gc.u.x gc.u.y) (hypot gc.v.x gc.v.y) * WELL_RADIUS_FACTOR))
        (getPixelData img pp.x pp.y (min (hypot gc.u.x gc.u.y) (hypot gc.v.x gc.v.y) * WELL_RADIUS_FACTOR)) ∧
      calculateIC50 out.wellResults concs rowCount units = .ok out.ic50 := by
  unfold processWellPlate analyzeAfterSampling at h
  dsimp only at h
  split at h
  · exact absurd h (by simp)
  · split at h
    · exact absurd h (by simp)
    · split at h
      · exact absurd h (by simp)
      · rename_i ic hic
        obtain rfl : (⟨_, ic⟩ : AnalysisOutput) = out := (Except.ok.injEq _ _).mp h
        exact ⟨rfl, hic⟩

/-- Forward run of the pipeline when the radius is nonzero and the IC50 step
returns without throwing: the output is the full well list with that IC50. -/
theorem processWellPlate_ok_of (hypot : ℚ → ℚ → ℚ) (rgbToLab : RGB → Lab)
    (labToRgb : Lab → RGB) (img : Image) (gc : GridConfig) (rowCount colCount : ℕ)
    (np pp : Point) (concs : List ℚ) (units : String) (o : Option IC50Result)
    (hradius : min (hypot gc.u.x gc.u.y) (hypot gc.v.x gc.v.y) * WELL_RADIUS_FACTOR ≠ 0)
    (hic : calculateIC50 (pipelineWells rgbToLab labToRgb img gc rowCount colCount
        (min (hypot gc.u.x gc.u.y) (hypot gc.v.x gc.v.y) * WELL_RADIUS_FACTOR)
        (getPixelData img np.x np.y (min (hypot gc.u.x gc.u.y) (hypot gc.v.x gc.v.y) * WELL_RADIUS_FACTOR))
        (getPixelData img pp.x pp.y (min (hypot gc.u.x gc.u.y) (hypot gc.v.x gc.v.y) * WELL_RADIUS_FACTOR)))
        concs rowCount units = .ok o) :
    processWellPlate hypot rgbToLab labToRgb img gc rowCount colCount np pp concs units =
      .ok ⟨pipelineWells rgbToLab labToRgb img gc rowCount colCount
        (min (hypot gc.u.x gc.u.y) (hypot gc.v.x gc.v.y) * WELL_RADIUS_FACTOR)
        (getPixelData img np.x np.y (min (hypot gc.u.x gc.u.y) (hypot gc.v.x gc.v.y) * WELL_RADIUS_FACTOR))
        (getPixelData img pp.x pp.y (min (hypot gc.u.x gc.u.y) (hypot gc.v.x gc.v.y) * WELL_RADIUS_FACTOR)), o⟩ := by
  have hmin := getPixelData_length_pos img np.x np.y
    (min (hypot gc.u.x gc.u.y) (hypot gc.v.x gc.v.y) * WELL_RADIUS_FACTOR)
  have hmax := getPixelData_length_pos img pp.x pp.y
    (min (hypot gc.u.x gc.u.y) (hypot gc.v.x gc.v.y) * WELL_RADIUS_FACTOR)
  unfold processWellPlate analyzeAfterSampling
  dsimp only
  rw [if_neg hradius, if_neg (by omega), hic]

/-- Shape of the well loop: `rowCount · colCount` entries, entry
`row · colCount + col` being the well at `(row, col)`. -/
theorem wellsOf_shape (rgbToLab : RGB → Lab) (labToRgb : Lab → RGB) (img : Image)
    (gc : GridConfig) (rowCount colCount : ℕ) (radius : ℚ)
    (labMin gradientVector : Lab) (gradientMagSq : ℚ) :
    (wellsOf rgbToLab labToRgb img gc rowCount colCount radius labMin gradientVector gradientMagSq).length =
      rowCount * colCount ∧
    ∀ row col, row < rowCount → col < colCount →
      (wellsOf rgbToLab labToRgb img gc rowCount colCount radius labMin gradientVector gradientMagSq)[row * colCount + col]? =
        some (analyzeWell rgbToLab labToRgb img gc radius labMin gradientVector gradientMagSq row col) := by
  constructor
  · exact flatMap_range_length _ rowCount colCount
  · intro row col hr hc
    exact flatMap_range_getElem? _ rowCount colCount row col hr hc

/-! ## Claim theorems -/

/-- C5: the robust color estimator returns black on the empty sample, the
single pixel unchanged (with no color-space conversion applied), and
otherwise the converted-back triple of independent per-channel medians of
the Lab-converted samples (each channel sorted separately; even counts
average the two central order statistics). Stated for every choice of the
conversion functions. -/
theorem robust_color_median_spec :
    (∀ (rgbToLab : RGB → Lab) (labToRgb : Lab → RGB),
      getRobustAverageColor rgbToLab labToRgb [] = ⟨0, 0, 0⟩) ∧
    (∀ (rgbToLab : RGB → Lab) (labToRgb : Lab → RGB) (p : RGB),
      getRobustAverageColor rgbToLab labToRgb [p] = p) ∧
    (∀ (rgbToLab : RGB → Lab) (labToRgb : Lab → RGB) (pixels : List RGB),
      2 ≤ pixels.length →
      getRobustAverageColor rgbToLab labToRgb pixels =
        labToRgb ⟨channelMedian (pixels.map fun p => (rgbToLab p).l),
          channelMedian (pixels.map fun p => (rgbToLab p).a),
          channelMedian (pixels.map fun p => (rgbToLab p).b)⟩) := by
  refine ⟨fun f g => rfl, fun f g p => rfl, fun f g pixels h2 => ?_⟩
  unfold getRobustAverageColor
  rw [if_neg (by omega), if_neg (by omega)]
  unfold channelMedian
  simp only [List.map_map, List.length_insertionSort, List.length_map, Function.comp_def]

/-- C5 witness: a concrete two-pixel sample with concrete conversions; the
per-channel medians of `[(0,0,0), (2,4,6)]` are `(1,2,3)`. -/
theorem robust_color_median_spec_witness :
    2 ≤ pixPair.length ∧
    getRobustAverageColor labOfChannels blackOfLab pixPair = blackOfLab ⟨1, 2, 3⟩ :=
  ⟨by decide, (robust_color_median_spec.2.2 labOfChannels blackOfLab pixPair (by decide)).trans
    (by decide)⟩

/-- C6 counterexample: at center (5,5) and radius 1.6 on a 20×20 image, the
source sampler (`Math.round`, a 2r-wide square) returns 11 samples while the
claimed sampler (floored radius, the (2r+1)-wide square `[c−r, c+r]`,
in-bounds disk positions only) returns 5; the claim's description of
`getPixelData` is false at this input. -/
theorem sampler_round_vs_floor_cex :
    (getPixelData imgWhite 5 5 (8 / 5)).length = 11 ∧
    (flooredDiskSample imgWhite 5 5 (8 / 5)).length = 5 ∧
    getPixelData imgWhite 5 5 (8 / 5) ≠ flooredDiskSample imgWhite 5 5 (8 / 5) :=
  ⟨by decide, by decide, by decide⟩

/-- C6 amended: the sampler clamps the radius with `max 1 (round radius)`
(round, not floor), enumerates the 2r×2r pixel square whose top-left corner
is `(round (x−r), round (y−r))` — for an integer center this covers
`[center−r, center+r−1]`, not `[center−r, center+r]` — keeps the positions
within Euclidean distance `r` of the square's center offset `(r, r)`, and
reads each kept position through the canvas, where an out-of-bounds position
yields black `(0,0,0)` rather than being omitted. -/
theorem sampler_rounded_square_spec :
    ∀ (img : Image) (x y radius : ℚ),
      getPixelData img x y radius = roundedSquareDiskSample img x y radius :=
  getPixelData_eq_square

/-- C9 counterexample: a fully out-of-bounds disk (center (10,10), radius 1,
on a 1×1 image) yields three black samples, not the empty sequence the claim
requires, and those samples stand for out-of-bounds positions. -/
theorem sampler_oob_black_cex :
    getPixelData imgDot 10 10 1 = [⟨0, 0, 0⟩, ⟨0, 0, 0⟩, ⟨0, 0, 0⟩] ∧
    getPixelData imgDot 10 10 1 ≠ [] :=
  ⟨by decide, by decide⟩

/-- C9 amended: the sampler is total — it never raises an error — but it does
not omit out-of-bounds positions: every returned sample is either an actual
in-bounds pixel of the image or the black fill `(0,0,0)` standing for an
out-of-bounds read, and the returned sequence is never empty because the
disk always contains the square's center position. -/
theorem sampler_total_black_fill :
    (∀ (img : Image) (x y radius : ℚ), 0 < (getPixelData img x y radius).length) ∧
    (∀ (img : Image) (x y radius : ℚ) (p : RGB), p ∈ getPixelData img x y radius →
      p = ⟨0, 0, 0⟩ ∨ p ∈ imagePixels img) :=
  ⟨getPixelData_length_pos, getPixelData_mem_black_or_pixel⟩

/-- C9 witness: the black sample of the out-of-bounds run is accounted for by
the second conjunct, and the first gives its nonemptiness. -/
theorem sampler_total_black_fill_witness :
    ((⟨0, 0, 0⟩ : RGB) = ⟨0, 0, 0⟩ ∨ (⟨0, 0, 0⟩ : RGB) ∈ imagePixels imgDot) ∧
    0 < (getPixelData imgDot 10 10 1).length :=
  ⟨sampler_total_black_fill.2 imgDot 10 10 1 ⟨0, 0, 0⟩ (by decide),
    sampler_total_black_fill.1 imgDot 10 10 1⟩

/-- C2: the dose series is sorted ascending by concentration; whenever the
estimator returns a value and the sorted series has its first adjacent
50%-crossing at index `i`, the pair at `(i, i+1)` reordered so the
lower-viability point comes first satisfies `p1.viability < p2.viability`,
and the returned value is exactly
`p1.concentration + (50 − p1.viability)·(p2.concentration − p1.concentration)/(p2.viability − p1.viability)`
with the caller's units; and on the mean-viability series
`[(1,90),(10,60),(100,40),(1000,10)]` the returned value is exactly 55. -/
theorem ic50_first_crossing_formula :
    (∀ (wellResults : List WellResult) (rowConcentrations : List ℚ) (rowCount : ℕ)
        (dps : List DataPoint),
      dataPointsE wellResults rowConcentrations rowCount = .ok dps →
      List.Sorted byConc dps) ∧
    (∀ (wellResults : List WellResult) (rowConcentrations : List ℚ) (rowCount : ℕ)
        (units : String) (res : IC50Result) (dps : List DataPoint) (i : ℕ)
        (c n : DataPoint),
      calculateIC50 wellResults rowConcentrations rowCount units = .ok (some res) →
      dataPointsE wellResults rowConcentrations rowCount = .ok dps →
      dps[i]? = some c → dps[i + 1]? = some n → crossAt c n →
      (∀ j, j < i → ¬ crossingAt dps j) →
      (reorderByViability c n).1.viability < (reorderByViability c n).2.viability ∧
      res.value = (reorderByViability c n).1.concentration +
        (50 - (reorderByViability c n).1.viability) *
          ((reorderByViability c n).2.concentration - (reorderByViability c n).1.concentration) /
          ((reorderByViability c n).2.viability - (reorderByViability c n).1.viability) ∧
      res.units = units) ∧
    calculateIC50 exampleWells exampleConcs 4 "nM" = .ok (some ⟨55, "nM"⟩) := by
  refine ⟨?_, ?_, by decide⟩
  · intro wells concs rc dps h
    unfold dataPointsE at h
    split at h
    · exact absurd h (by simp)
    · obtain rfl : List.insertionSort byConc _ = dps := (Except.ok.injEq _ _).mp h
      exact List.sorted_insertionSort byConc _
  · intro wells concs rc units res dps i c n hok hdp hci hcn hx hmin
    obtain ⟨dps', p1, p2, hdp', hlen, hffc, heps, hres⟩ :=
      calculateIC50_ok_some wells concs rc units res hok
    obtain rfl : dps = dps' := (Except.ok.injEq _ _).mp (hdp.symm.trans hdp')
    have hf := findFirstCrossing_of_first dps i c n hci hcn hx hmin
    have hpq : reorderByViability c n = (p1, p2) :=
      (Option.some.injEq _ _).mp ((hf.symm.trans hffc))
    have h1 : (reorderByViability c n).1 = p1 := by rw [hpq]
    have h2 : (reorderByViability c n).2 = p2 := by rw [hpq]
    have hsplit := findFirstCrossing_viability dps p1 p2 hffc
    rw [h1, h2, hres]
    exact ⟨by linarith [hsplit.1, hsplit.2], rfl, rfl⟩

/-- C2 witness: the bracket example. The sorted series is
`[(1,90),(10,60),(100,40),(1000,10)]`, the first crossing is at index 1
(pair `(10,60)`, `(100,40)`), reordering puts `(100,40)` first, and the
formula gives 55. -/
theorem ic50_first_crossing_formula_witness :
    (reorderByViability ⟨10, 60⟩ ⟨100, 40⟩).1.viability <
      (reorderByViability ⟨10, 60⟩ ⟨100, 40⟩).2.viability ∧
    (⟨55, "nM"⟩ : IC50Result).value = (reorderByViability ⟨10, 60⟩ ⟨100, 40⟩).1.concentration +
      (50 - (reorderByViability ⟨10, 60⟩ ⟨100, 40⟩).1.viability) *
        ((reorderByViability ⟨10, 60⟩ ⟨100, 40⟩).2.concentration -
          (reorderByViability ⟨10, 60⟩ ⟨100, 40⟩).1.concentration) /
        ((reorderByViability ⟨10, 60⟩ ⟨100, 40⟩).2.viability -
          (reorderByViability ⟨10, 60⟩ ⟨100, 40⟩).1.viability) ∧
    (⟨55, "nM"⟩ : IC50Result).units = "nM" :=
  ic50_first_crossing_formula.2.1 exampleWells exampleConcs 4 "nM" ⟨55, "nM"⟩
    exampleDataPoints 1 ⟨10, 60⟩ ⟨100, 40⟩ (by decide) (by decide) (by decide) (by decide)
    (by decide) (by decide)

/-- C10: whenever the estimator returns a value, the bracketing pair chosen
by the crossing scan splits 50% viability (`p1.viability < 50 ≤
p2.viability` after reordering), the value lies in the closed interval
between the two bracketing concentrations, and both bracketing
concentrations are strictly positive members of the row concentration list
(hence the value lies between the least and greatest positive row
concentrations). -/
theorem ic50_value_bracketed :
    ∀ (wellResults : List WellResult) (rowConcentrations : List ℚ) (rowCount : ℕ)
      (units : String) (res : IC50Result) (dps : List DataPoint) (p1 p2 : DataPoint),
      calculateIC50 wellResults rowConcentrations rowCount units = .ok (some res) →
      dataPointsE wellResults rowConcentrations rowCount = .ok dps →
      findFirstCrossing dps = some (p1, p2) →
      p1.viability < 50 ∧ 50 ≤ p2.viability ∧
      min p1.concentration p2.concentration ≤ res.value ∧
      res.value ≤ max p1.concentration p2.concentration ∧
      (0 < p1.concentration ∧ p1.concentration ∈ rowConcentrations) ∧
      (0 < p2.concentration ∧ p2.concentration ∈ rowConcentrations) := by
  intro wells concs rc units res dps p1 p2 hok hdp hffc
  obtain ⟨dps', q1, q2, hdp', hlen, hffc', heps, hres⟩ :=
    calculateIC50_ok_some wells concs rc units res hok
  obtain rfl : dps = dps' := (Except.ok.injEq _ _).mp (hdp.symm.trans hdp')
  have hq : (p1, p2) = (q1, q2) := (Option.some.injEq _ _).mp (hffc.symm.trans hffc')
  obtain ⟨rfl, rfl⟩ : p1 = q1 ∧ p2 = q2 := Prod.mk.injEq _ _ _ _ |>.mp hq
  have hsplit := findFirstCrossing_viability dps p1 p2 hffc
  have hmem := findFirstCrossing_mem dps p1 p2 hffc
  have hmem1 := dataPointsE_mem wells concs rc dps hdp p1 hmem.1
  have hmem2 := dataPointsE_mem wells concs rc dps hdp p2 hmem.2
  obtain ⟨hv1, hv2⟩ := hsplit
  have hd : 0 < p2.viability - p1.viability := by linarith
  have hval : res.value = p1.concentration +
      (50 - p1.viability) / (p2.viability - p1.viability) *
        (p2.concentration - p1.concentration) := by
    rw [hres]
    dsimp only
    rw [mul_div_right_comm]
  have ht0 : 0 ≤ (50 - p1.viability) / (p2.viability - p1.viability) :=
    div_nonneg (by linarith) hd.le
  have ht1 : (50 - p1.viability) / (p2.viability - p1.viability) ≤ 1 :=
    (div_le_one hd).mpr (by linarith)
  refine ⟨hv1, hv2, ?_, ?_, hmem1, hmem2⟩
  · rcases le_total p1.concentration p2.concentration with hc | hc
    · rw [min_eq_left hc]
      have := mul_nonneg ht0 (sub_nonneg.mpr hc)
      linarith
    · rw [min_eq_right hc]
      have := mul_le_mul_of_nonpos_right ht1 (sub_nonpos.mpr hc)
      linarith
  · rcases le_total p1.concentration p2.concentration with hc | hc
    · rw [max_eq_right hc]
      have := mul_le_mul_of_nonneg_right ht1 (sub_nonneg.mpr hc)
      linarith
    · rw [max_eq_left hc]
      have := mul_nonpos_of_nonneg_of_nonpos ht0 (sub_nonpos.mpr hc)
      linarith

/-- C10 witness: on the bracket example the value 55 lies between the
bracketing concentrations 10 and 100, both positive members of the series. -/
theorem ic50_value_bracketed_witness :
    (⟨100, 40⟩ : DataPoint).viability < 50 ∧ 50 ≤ (⟨10, 60⟩ : DataPoint).viability ∧
    min (⟨100, 40⟩ : DataPoint).concentration (⟨10, 60⟩ : DataPoint).concentration ≤
      (⟨55, "nM"⟩ : IC50Result).value ∧
    (⟨55, "nM"⟩ : IC50Result).value ≤
      max (⟨100, 40⟩ : DataPoint).concentration (⟨10, 60⟩ : DataPoint).concentration ∧
    (0 < (⟨100, 40⟩ : DataPoint).concentration ∧
      (⟨100, 40⟩ : DataPoint).concentration ∈ exampleConcs) ∧
    (0 < (⟨10, 60⟩ : DataPoint).concentration ∧
      (⟨10, 60⟩ : DataPoint).concentration ∈ exampleConcs) :=
  ic50_value_bracketed exampleWells exampleConcs 4 "nM" ⟨55, "nM"⟩ exampleDataPoints
    ⟨100, 40⟩ ⟨10, 60⟩ (by decide) (by decide) (by decide)

/-- C4: every well result of a successful analysis has `intensity ∈ [0,1]`
and `viability = intensity * 100`; and the per-well computation forces
intensity to 0 (instead of computing the projection) whenever the well's
pixel sample is empty or the calibration gradient's squared magnitude is
below the epsilon `1e-6`. -/
theorem wellResult_intensity_invariants :
    (∀ (hypot : ℚ → ℚ → ℚ) (rgbToLab : RGB → Lab) (labToRgb : Lab → RGB) (img : Image)
        (gc : GridConfig) (rowCount colCount : ℕ) (np pp : Point) (concs : List ℚ)
        (units : String) (out : AnalysisOutput),
      processWellPlate hypot rgbToLab labToRgb img gc rowCount colCount np pp concs units = .ok out →
      ∀ w ∈ out.wellResults,
        0 ≤ w.intensity ∧ w.intensity ≤ 1 ∧ w.viability = w.intensity * 100) ∧
    (∀ (rgbToLab : RGB → Lab) (labToRgb : Lab → RGB) (img : Image) (gc : GridConfig)
        (radius : ℚ) (labMin gradientVector : Lab) (gradientMagSq : ℚ) (row col : ℕ),
      (getPixelData img (gc.origin.x + (col : ℚ) * gc.u.x + (row : ℚ) * gc.v.x)
          (gc.origin.y + (col : ℚ) * gc.u.y + (row : ℚ) * gc.v.y) radius = [] ∨
        gradientMagSq < 1 / 1000000) →
      (analyzeWell rgbToLab labToRgb img gc radius labMin gradientVector gradientMagSq row col).intensity = 0) := by
  constructor
  · intro hy f g img gc rc cc np pp concs units out h w hw
    obtain ⟨hwells, -⟩ := processWellPlate_ok hy f g img gc rc cc np pp concs units out h
    rw [hwells] at hw
    simp only [pipelineWells, wellsOf] at hw
    obtain ⟨row, -, hw2⟩ := List.mem_flatMap.mp hw
    obtain ⟨col, -, rfl⟩ := List.mem_map.mp hw2
    exact ⟨(wellIntensity_bounds _ _ _ _ _ _).1, (wellIntensity_bounds _ _ _ _ _ _).2, rfl⟩
  · intro f g img gc radius labMin gv magSq row col h
    exact wellIntensity_zero f labMin gv magSq _ _ h

/-- C4 witness: the first well of the small run satisfies the invariants;
with a zero gradient the per-well intensity is forced to 0. -/
theorem wellResult_intensity_invariants_witness :
    (0 ≤ wellA1.intensity ∧ wellA1.intensity ≤ 1 ∧ wellA1.viability = wellA1.intensity * 100) ∧
    (analyzeWell labOfChannels blackOfLab imgWhite gcSmall (6 / 5)
      ⟨0, 0, 0⟩ ⟨0, 0, 0⟩ 0 0 0).intensity = 0 :=
  ⟨wellResult_intensity_invariants.1 hypotAxis labOfChannels blackOfLab imgWhite gcSmall 2 1
      npSmall ppSmall [] "nM" outSmall (by decide) wellA1 (by decide),
    wellResult_intensity_invariants.2 labOfChannels blackOfLab imgWhite gcSmall (6 / 5)
      ⟨0, 0, 0⟩ ⟨0, 0, 0⟩ 0 0 0 (Or.inr (by norm_num))⟩

/-- C8: a successful analysis over `rowCount × colCount` wells returns
exactly one result per grid cell in row-major order: the list has length
`rowCount · colCount` and its entry at `row · colCount + col` has that row
and column, center `origin + col·u + row·v`, and id the row letter
(`fromCharCode (65 + row)`) followed by the 1-based column number. -/
theorem processWellPlate_row_major :
    ∀ (hypot : ℚ → ℚ → ℚ) (rgbToLab : RGB → Lab) (labToRgb : Lab → RGB) (img : Image)
      (gc : GridConfig) (rowCount colCount : ℕ) (np pp : Point) (concs : List ℚ)
      (units : String) (out : AnalysisOutput),
      processWellPlate hypot rgbToLab labToRgb img gc rowCount colCount np pp concs units = .ok out →
      out.wellResults.length = rowCount * colCount ∧
      ∀ row col, row < rowCount → col < colCount →
        Option.map WellResult.row out.wellResults[row * colCount + col]? = some row ∧
        Option.map WellResult.col out.wellResults[row * colCount + col]? = some col ∧
        Option.map WellResult.center out.wellResults[row * colCount + col]? =
          some ⟨gc.origin.x + (col : ℚ) * gc.u.x + (row : ℚ) * gc.v.x,
                gc.origin.y + (col : ℚ) * gc.u.y + (row : ℚ) * gc.v.y⟩ ∧
        Option.map WellResult.id out.wellResults[row * colCount + col]? =
          some ((Char.ofNat (65 + row)).toString ++ toString (col + 1)) := by
  intro hy f g img gc rc cc np pp concs units out h
  obtain ⟨hwells, -⟩ := processWellPlate_ok hy f g img gc rc cc np pp concs units out h
  rw [hwells]
  simp only [pipelineWells]
  constructor
  · exact (wellsOf_shape _ _ _ _ _ _ _ _ _ _).1
  · intro row col hr hc
    rw [(wellsOf_shape _ _ _ _ _ _ _ _ _ _).2 row col hr hc]
    exact ⟨rfl, rfl, rfl, rfl⟩

/-- C8 witness: in the small 2×1 run, the entry at index `1·1 + 0` is well
B1 at center (10, 14), row 1, column 0. -/
theorem processWellPlate_row_major_witness :
    outSmall.wellResults.length = 2 * 1 ∧
    Option.map WellResult.row outSmall.wellResults[1 * 1 + 0]? = some 1 ∧
    Option.map WellResult.col outSmall.wellResults[1 * 1 + 0]? = some 0 ∧
    Option.map WellResult.center outSmall.wellResults[1 * 1 + 0]? = some ⟨10, 14⟩ ∧
    Option.map WellResult.id outSmall.wellResults[1 * 1 + 0]? = some "B1" := by
  obtain ⟨h1, h2⟩ := processWellPlate_row_major hypotAxis labOfChannels blackOfLab imgWhite
    gcSmall 2 1 npSmall ppSmall [] "nM" outSmall (by decide)
  obtain ⟨hrow, hcol, hcen, hid⟩ := h2 1 0 (by omega) (by omega)
  exact ⟨h1, hrow, hcol, hcen.trans (by decide), hid.trans (by decide)⟩

/-- C3 (code bug): contrary to the spec's "never a thrown error", the
estimator throws a `TypeError` when a strictly positive concentration sits
at a row index at or beyond `rowCount`: the optional-chaining guard
`viabilitiesByRow[rowIndex]?.length === 0` evaluates to `false` for the
`undefined` row, and the next line calls `.reduce` on `undefined`. Concrete
failing input: no wells, `rowConcentrations = [1, 2]`, `rowCount = 1`. -/
theorem ic50_missing_row_throws :
    calculateIC50 [] [1, 2] 1 "nM" = .error "TypeError: cannot read reduce of undefined" := by
  decide

/-- C7 (amended): a zero sampling radius fails the whole analysis with the
radius error for every image, before any pixel is read; an empty reference
sample fails the whole analysis with the calibration error; and when the
radius is nonzero and the IC50 step returns without throwing, the analysis
succeeds with the full well list — in particular an absent IC50 never
aborts it. (The caveat forced by the counterexample: a `TypeError` *thrown*
by the IC50 step does propagate and abort the analysis.) -/
theorem analysis_error_propagation :
    (∀ (hypot : ℚ → ℚ → ℚ) (rgbToLab : RGB → Lab) (labToRgb : Lab → RGB) (img : Image)
        (gc : GridConfig) (rowCount colCount : ℕ) (np pp : Point) (concs : List ℚ)
        (units : String),
      min (hypot gc.u.x gc.u.y) (hypot gc.v.x gc.v.y) * WELL_RADIUS_FACTOR = 0 →
      processWellPlate hypot rgbToLab labToRgb img gc rowCount colCount np pp concs units =
        .error "Could not determine a valid well radius. Check grid selection and dimensions.") ∧
    (∀ (rgbToLab : RGB → Lab) (labToRgb : Lab → RGB) (img : Image) (gc : GridConfig)
        (rowCount colCount : ℕ) (radius : ℚ) (minColorPixels maxColorPixels : List RGB)
        (concs : List ℚ) (units : String),
      minColorPixels = [] ∨ maxColorPixels = [] →
      analyzeAfterSampling rgbToLab labToRgb img gc rowCount colCount radius
          minColorPixels maxColorPixels concs units =
        .error "Could not sample reference colors. Please ensure calibration points are inside wells.") ∧
    (∀ (hypot : ℚ → ℚ → ℚ) (rgbToLab : RGB → Lab) (labToRgb : Lab → RGB) (img : Image)
        (gc : GridConfig) (rowCount colCount : ℕ) (np pp : Point) (concs : List ℚ)
        (units : String),
      min (hypot gc.u.x gc.u.y) (hypot gc.v.x gc.v.y) * WELL_RADIUS_FACTOR ≠ 0 →
      calculateIC50 (pipelineWells rgbToLab labToRgb img gc rowCount colCount
          (min (hypot gc.u.x gc.u.y) (hypot gc.v.x gc.v.y) * WELL_RADIUS_FACTOR)
          (getPixelData img np.x np.y (min (hypot gc.u.x gc.u.y) (hypot gc.v.x gc.v.y) * WELL_RADIUS_FACTOR))
          (getPixelData img pp.x pp.y (min (hypot gc.u.x gc.u.y) (hypot gc.v.x gc.v.y) * WELL_RADIUS_FACTOR)))
          concs rowCount units = .ok none →
      processWellPlate hypot rgbToLab labToRgb img gc rowCount colCount np pp concs units =
        .ok ⟨pipelineWells rgbToLab labToRgb img gc rowCount colCount
          (min (hypot gc.u.x gc.u.y) (hypot gc.v.x gc.v.y) * WELL_RADIUS_FACTOR)
          (getPixelData img np.x np.y (min (hypot gc.u.x gc.u.y) (hypot gc.v.x gc.v.y) * WELL_RADIUS_FACTOR))
          (getPixelData img pp.x pp.y (min (hypot gc.u.x gc.u.y) (hypot gc.v.x gc.v.y) * WELL_RADIUS_FACTOR)),
          none⟩) := by
  refine ⟨?_, ?_, ?_⟩
  · intro hy f g img gc rc cc np pp concs units h
    unfold processWellPlate
    dsimp only
    rw [if_pos h]
  · intro f g img gc rc cc radius minPx maxPx concs units h
    rcases h with rfl | rfl
    · simp [analyzeAfterSampling]
    · simp [analyzeAfterSampling]
  · intro hy f g img gc rc cc np pp concs units hradius hic
    exact processWellPlate_ok_of hy f g img gc rc cc np pp concs units none hradius hic

/-- C7 counterexample: a failure confined to the IC50 step that aborts the
whole analysis. With `rowConcentrations = [1, 2, 3]` and `rowCount = 2`, the
well results are all computed, but the IC50 step throws (positive
concentration at row index 2 ≥ rowCount), so the analysis returns an error
instead of the well list with an absent IC50. -/
theorem ic50_throw_aborts_analysis_cex :
    processWellPlate hypotAxis labOfChannels blackOfLab imgWhite gcSmall 2 1
      npSmall ppSmall [1, 2, 3] "nM" = .error "TypeError: cannot read reduce of undefined" := by
  decide

/-- C7 witness: a zero step vector gives the radius error; an empty
reference sample gives the calibration error; and the small run with an
absent IC50 still returns both wells. -/
theorem analysis_error_propagation_witness :
    processWellPlate hypotAxis labOfChannels blackOfLab imgWhite gcZero 2 1
      npSmall ppSmall [] "nM" =
      .error "Could not determine a valid well radius. Check grid selection and dimensions." ∧
    analyzeAfterSampling labOfChannels blackOfLab imgWhite gcSmall 2 1 (6 / 5)
      [] [⟨1, 1, 1⟩] [] "nM" =
      .error "Could not sample reference colors. Please ensure calibration points are inside wells." ∧
    processWellPlate hypotAxis labOfChannels blackOfLab imgWhite gcSmall 2 1
      npSmall ppSmall [] "nM" = .ok outSmall :=
  ⟨analysis_error_propagation.1 hypotAxis labOfChannels blackOfLab imgWhite gcZero 2 1
      npSmall ppSmall [] "nM" (by decide),
    analysis_error_propagation.2.1 labOfChannels blackOfLab imgWhite gcSmall 2 1 (6 / 5)
      [] [⟨1, 1, 1⟩] [] "nM" (Or.inl rfl),
    (analysis_error_propagation.2.2 hypotAxis labOfChannels blackOfLab imgWhite gcSmall 2 1
      npSmall ppSmall [] "nM" (by decide) (by decide)).trans (by decide)⟩

end WellPlate
